import Mathlib

/-!
# Verification of the MorphoArbre morphology core (src/lib/morphology.ts)

Strings are embedded as `List Char` (Unicode code points).  All inputs that
matter here are in the Basic Multilingual Plane, where a JavaScript string is
one UTF-16 unit per code point, so `String.prototype.length`, indexing `s[i]`
and `for (let c of s)` all agree with the `List Char` view.
-/

namespace MorphoArbre

/-- U+0627 bare alef. -/
def alef : Char := 'ا'

/-- U+0622 alef with madda above. -/
def alefMadda : Char := 'آ'

/-- U+0623 alef with hamza above. -/
def alefHamzaAbove : Char := 'أ'

/-- U+0625 alef with hamza below. -/
def alefHamzaBelow : Char := 'إ'

/-- U+0624 waw with hamza above. -/
def wawHamza : Char := 'ؤ'

/-- U+0626 ya with hamza above. -/
def yaHamza : Char := 'ئ'

/-- U+0621 the standalone hamza letter (hamza on the line). -/
def hamzaStandalone : Char := 'ء'

/-- U+0629 ta marbuta. -/
def taMarbuta : Char := 'ة'

/-- U+0647 ha. -/
def ha : Char := 'ه'

/-- U+0648 waw. -/
def waw : Char := 'و'

/-- U+064A ya. -/
def ya : Char := 'ي'

/-- U+0641 fa, the first-radical marker in templates. -/
def fa : Char := 'ف'

/-- U+0639 ain, the second-radical marker in templates. -/
def ain : Char := 'ع'

/-- U+0644 lam, the third-radical marker in templates. -/
def lam : Char := 'ل'

/-- U+0643 kaf. -/
def kaf : Char := 'ك'

/-- U+062A ta. -/
def ta : Char := 'ت'

/-- U+0628 ba. -/
def ba : Char := 'ب'

/-- U+0652 sukun, the last combining mark of the stripped range. -/
def sukun : Char := 'ْ'

/-- The sentinel string returned by `generateWord` for a root whose length
differs from 3 (`return "Error: Root must be 3 characters"`). -/
def errorRootMsg : List Char := "Error: Root must be 3 characters".toList

/-- Embedding of `generateWord(root, pattern)` from src/lib/morphology.ts:
if the root does not have exactly 3 characters it returns the error sentinel;
otherwise it scans the pattern left to right and replaces the radical markers
fa / ain / lam by the three root letters, copying every other character. -/
def generateWord (root pattern : List Char) : List Char :=
  match root with
  | [r1, r2, r3] =>
      pattern.map (fun c =>
        if c = fa then r1
        else if c = ain then r2
        else if c = lam then r3
        else c)
  | _ => errorRootMsg

/-- True on the combining marks U+064B..U+0652, the class stripped by the
source regex `/[ً-ْ]/g` in `normalizeArabic`. -/
def isHaraka (c : Char) : Bool :=
  0x64B ≤ c.toNat && c.toNat ≤ 0x652

/-- One global single-character replacement, the embedding of
`String.prototype.replace(/x/g, "y")` for one-character x and y. -/
def replaceCharF (a b c : Char) : Char :=
  if c = a then b else c

/-- `replaceChar a b s` replaces every occurrence of `a` in `s` by `b`. -/
def replaceChar (a b : Char) (s : List Char) : List Char :=
  s.map (replaceCharF a b)

/-- Embedding of `normalizeArabic(text)` from src/lib/morphology.ts: strip the
harakat range, then fold alef-madda, alef-hamza-below, alef-hamza-above to
bare alef, waw-hamza to waw, ya-hamza to ya and ta-marbuta to ha, in the
source's order of `.replace` calls. -/
def normalizeArabic (s : List Char) : List Char :=
  replaceChar taMarbuta ha
    (replaceChar yaHamza ya
      (replaceChar wawHamza waw
        (replaceChar alefHamzaAbove alef
          (replaceChar alefHamzaBelow alef
            (replaceChar alefMadda alef
              ((s.filter (fun c => !isHaraka c))))))))

/-- The record returned by `validateWord`: `{ isValid: boolean; scheme?: string }`.
A missing `scheme` field is embedded as `none`. -/
structure ValidationResult where
  isValid : Bool
  scheme : Option (List Char)
deriving DecidableEq, Repr

/-- Embedding of `validateWord(word, root, patterns)` from src/lib/morphology.ts:
walk the patterns in order; on the first pattern whose regenerated word equals
the candidate under `normalizeArabic`, return `isValid = true` with that
pattern (the pattern string is its own identifier in this API); if none
matches, return `isValid = false` with no scheme. -/
def validateWord (word root : List Char) (patterns : List (List Char)) : ValidationResult :=
  match patterns with
  | [] => ⟨false, none⟩
  | p :: ps =>
      if normalizeArabic (generateWord root p) = normalizeArabic word then
        ⟨true, some p⟩
      else
        validateWord word root ps

/-- Embedding of `decomposeWord(word, patterns)` from src/lib/morphology.ts:
the body is a comment and `return null`. -/
def decomposeWord (word : List Char) (patterns : List (List Char)) :
    Option (List Char × List Char) :=
  none

/-- The net per-letter effect of the six `.replace` folds of `normalizeArabic`,
in the source's order. -/
def foldLetter (c : Char) : Char :=
  if c = alefMadda then alef
  else if c = alefHamzaBelow then alef
  else if c = alefHamzaAbove then alef
  else if c = wawHamza then waw
  else if c = yaHamza then ya
  else if c = taMarbuta then ha
  else c

/-- The letter folding as the specification words it (amended): the
hamza-above, hamza-below and madda variants of alef go to bare alef, waw-hamza
to waw, ya-hamza to ya, ta-marbuta to ha; everything else is unchanged. -/
def foldLetterSpec (c : Char) : Char :=
  if c = alefHamzaAbove ∨ c = alefHamzaBelow ∨ c = alefMadda then alef
  else if c = wawHamza then waw
  else if c = yaHamza then ya
  else if c = taMarbuta then ha
  else c

/-- True on the combining marks the specification says are removed (amended to
the exact stripped range U+064B..U+0652: short vowels, tanwin, shadda, sukun). -/
def isRemovedMark (c : Char) : Bool :=
  0x64B ≤ c.toNat && c.toNat ≤ 0x652

/-- The normalizer as the specification words it (amended): first remove the
combining marks, then fold the letters, character by character. -/
def normalizeSpec (s : List Char) : List Char :=
  (s.filter (fun c => !isRemovedMark c)).map foldLetterSpec

/-- Modelled from the spec: the Transformation Rule Engine (spec 4.4) lives in
the backend module, which is not among the available source files; only its
substitution step (`generateWord`) is.  Glottal-Initial rule for agent-noun
forms: where substitution has produced adjacent identical vowel-letters — the
glottal first radical (realized on the alef seat) followed by the template
alef — the pair merges into the single madda-marked alef. -/
def glottalInitialAgentRepair : List Char → List Char
  | c1 :: c2 :: rest =>
      if (c1 = alefHamzaAbove || c1 = alef) && c2 = alef then
        alefMadda :: glottalInitialAgentRepair rest
      else
        c1 :: glottalInitialAgentRepair (c2 :: rest)
  | l => l

/-- Modelled from the spec: generation for a Glottal-Initial root under an
agent-noun pattern is substitution followed by the madda-merge repair. -/
def generateGlottalInitialAgent (root template : List Char) : List Char :=
  glottalInitialAgentRepair (generateWord root template)

/-! ## Helper lemmas -/

theorem fold_compose (c : Char) :
    replaceCharF taMarbuta ha (replaceCharF yaHamza ya (replaceCharF wawHamza waw
      (replaceCharF alefHamzaAbove alef (replaceCharF alefHamzaBelow alef
        (replaceCharF alefMadda alef c))))) = foldLetter c := by
  by_cases h1 : c = alefMadda
  · subst h1; decide
  by_cases h2 : c = alefHamzaBelow
  · subst h2; decide
  by_cases h3 : c = alefHamzaAbove
  · subst h3; decide
  by_cases h4 : c = wawHamza
  · subst h4; decide
  by_cases h5 : c = yaHamza
  · subst h5; decide
  by_cases h6 : c = taMarbuta
  · subst h6; decide
  simp [replaceCharF, foldLetter, h1, h2, h3, h4, h5, h6]

theorem normalizeArabic_eq_filter_map (s : List Char) :
    normalizeArabic s = (s.filter (fun c => !isHaraka c)).map foldLetter := by
  induction s with
  | nil => rfl
  | cons a t ih =>
      simp only [normalizeArabic, replaceChar] at ih ⊢
      by_cases hh : isHaraka a
      · simpa [List.filter_cons, hh] using ih
      · simp only [List.filter_cons, hh, Bool.not_false, if_pos, List.map_cons]
        rw [fold_compose a, ih]

theorem foldLetter_eq_spec (c : Char) : foldLetter c = foldLetterSpec c := by
  by_cases h1 : c = alefMadda
  · subst h1; decide
  by_cases h2 : c = alefHamzaBelow
  · subst h2; decide
  by_cases h3 : c = alefHamzaAbove
  · subst h3; decide
  by_cases h4 : c = wawHamza
  · subst h4; decide
  by_cases h5 : c = yaHamza
  · subst h5; decide
  by_cases h6 : c = taMarbuta
  · subst h6; decide
  simp [foldLetter, foldLetterSpec, h1, h2, h3, h4, h5, h6]

theorem foldLetter_idem (c : Char) : foldLetter (foldLetter c) = foldLetter c := by
  by_cases h1 : c = alefMadda
  · subst h1; decide
  by_cases h2 : c = alefHamzaBelow
  · subst h2; decide
  by_cases h3 : c = alefHamzaAbove
  · subst h3; decide
  by_cases h4 : c = wawHamza
  · subst h4; decide
  by_cases h5 : c = yaHamza
  · subst h5; decide
  by_cases h6 : c = taMarbuta
  · subst h6; decide
  simp [foldLetter, h1, h2, h3, h4, h5, h6]

theorem isHaraka_foldLetter (c : Char) (h : isHaraka c = false) :
    isHaraka (foldLetter c) = false := by
  by_cases h1 : c = alefMadda
  · subst h1; decide
  by_cases h2 : c = alefHamzaBelow
  · subst h2; decide
  by_cases h3 : c = alefHamzaAbove
  · subst h3; decide
  by_cases h4 : c = wawHamza
  · subst h4; decide
  by_cases h5 : c = yaHamza
  · subst h5; decide
  by_cases h6 : c = taMarbuta
  · subst h6; decide
  simpa [foldLetter, h1, h2, h3, h4, h5, h6] using h

theorem normalizeArabic_errorRootMsg : normalizeArabic errorRootMsg = errorRootMsg := by
  decide

theorem generateWord_len_ne (root p : List Char) (h : root.length ≠ 3) :
    generateWord root p = errorRootMsg := by
  cases root with
  | nil => rfl
  | cons a r1 =>
      cases r1 with
      | nil => rfl
      | cons b r2 =>
          cases r2 with
          | nil => rfl
          | cons c r3 =>
              cases r3 with
              | nil => exact absurd rfl h
              | cons d r4 => rfl

theorem validateWord_match_exists (w root : List Char) (ps : List (List Char))
    (h : ∃ p ∈ ps, normalizeArabic (generateWord root p) = normalizeArabic w) :
    (validateWord w root ps).isValid = true ∧
    ∃ p, (validateWord w root ps).scheme = some p ∧ p ∈ ps ∧
      normalizeArabic (generateWord root p) = normalizeArabic w := by
  induction ps with
  | nil => simp at h
  | cons q qs ih =>
      by_cases hq : normalizeArabic (generateWord root q) = normalizeArabic w
      · exact ⟨by simp [validateWord, hq], q, by simp [validateWord, hq], by simp, hq⟩
      · have hmem : ∃ p ∈ qs, normalizeArabic (generateWord root p) = normalizeArabic w := by
          obtain ⟨p, hp, hnp⟩ := h
          rcases List.mem_cons.mp hp with rfl | hmem
          · exact absurd hnp hq
          · exact ⟨p, hmem, hnp⟩
        obtain ⟨h1, p, h2, h3, h4⟩ := ih hmem
        exact ⟨by simpa [validateWord, hq] using h1, p,
          by simpa [validateWord, hq] using h2, List.mem_cons_of_mem q h3, h4⟩

theorem validateWord_none_iff (w root : List Char) (ps : List (List Char)) :
    validateWord w root ps = ⟨false, none⟩ ↔
    ∀ p ∈ ps, normalizeArabic (generateWord root p) ≠ normalizeArabic w := by
  induction ps with
  | nil => simp [validateWord]
  | cons q qs ih =>
      by_cases hq : normalizeArabic (generateWord root q) = normalizeArabic w
      · simp [validateWord, hq]
      · simp [validateWord, hq, ih]

theorem validateWord_first (w root : List Char) (l1 : List (List Char))
    (p : List Char) (l2 : List (List Char))
    (hnone : ∀ q ∈ l1, normalizeArabic (generateWord root q) ≠ normalizeArabic w)
    (hp : normalizeArabic (generateWord root p) = normalizeArabic w) :
    validateWord w root (l1 ++ p :: l2) = ⟨true, some p⟩ := by
  induction l1 with
  | nil => simp [validateWord, hp]
  | cons q qs ih =>
      have hq := hnone q (by simp)
      simp only [List.cons_append, validateWord, hq, if_neg]
      exact ih (fun r hr => hnone r (by simp [hr]))

/-! ## Claim theorems -/

/-- Claim C1: for every root of exactly 3 letters and every pattern template,
if generation succeeds, then validation of the generated word against the same
root and a pattern collection containing that template returns
`isValid = true` together with the matching pattern's identifier (the returned
scheme is a member of the collection whose regenerated word equals the
candidate under normalization). -/
theorem generation_validation_round_trip (root t : List Char)
    (ps : List (List Char)) (h3 : root.length = 3) (hmem : t ∈ ps) :
    (validateWord (generateWord root t) root ps).isValid = true ∧
    ∃ p, (validateWord (generateWord root t) root ps).scheme = some p ∧
      p ∈ ps ∧
      normalizeArabic (generateWord root p) =
        normalizeArabic (generateWord root t) := by
  clear h3
  exact validateWord_match_exists _ _ _ ⟨t, hmem, rfl⟩

/-- Witness for C1: the regular root kaf-ta-ba with the agent-noun template. -/
theorem generation_validation_round_trip_witness :
    (validateWord (generateWord [kaf, ta, ba] [fa, alef, ain, lam]) [kaf, ta, ba]
        [[fa, alef, ain, lam]]).isValid = true ∧
    ∃ p, (validateWord (generateWord [kaf, ta, ba] [fa, alef, ain, lam]) [kaf, ta, ba]
        [[fa, alef, ain, lam]]).scheme = some p ∧
      p ∈ [[fa, alef, ain, lam]] ∧
      normalizeArabic (generateWord [kaf, ta, ba] p) =
        normalizeArabic (generateWord [kaf, ta, ba] [fa, alef, ain, lam]) :=
  generation_validation_round_trip [kaf, ta, ba] [fa, alef, ain, lam]
    [[fa, alef, ain, lam]] (by decide) (by decide)

/-- Claim C2: validation returns `isValid = true` with the identifier of the
first pattern in iteration order whose regenerated word equals the candidate
under `normalizeArabic`, and returns `isValid = false` with no identifier
exactly when no pattern in the collection matches. -/
theorem validateWord_first_match_characterization (word root : List Char)
    (h3 : root.length = 3) :
    (∀ l1 p l2,
        (∀ q ∈ l1, normalizeArabic (generateWord root q) ≠ normalizeArabic word) →
        normalizeArabic (generateWord root p) = normalizeArabic word →
        validateWord word root (l1 ++ p :: l2) = ⟨true, some p⟩) ∧
    (∀ ps, validateWord word root ps = ⟨false, none⟩ ↔
        ∀ p ∈ ps, normalizeArabic (generateWord root p) ≠ normalizeArabic word) := by
  clear h3
  exact ⟨fun l1 p l2 hnone hp => validateWord_first word root l1 p l2 hnone hp,
    fun ps => validateWord_none_iff word root ps⟩

/-- Witness for C2: the word kaf-alef-ta-ba is validated against root
kaf-ta-ba with the agent-noun template as the only known pattern. -/
theorem validateWord_first_match_characterization_witness :
    validateWord [kaf, alef, ta, ba] [kaf, ta, ba] [[fa, alef, ain, lam]] =
      ⟨true, some [fa, alef, ain, lam]⟩ := by
  have h := (validateWord_first_match_characterization [kaf, alef, ta, ba]
      [kaf, ta, ba] (by decide)).1 [] [fa, alef, ain, lam] []
      (by simp) (by decide)
  simpa using h

/-- Claim C3 (rule engine modelled from the spec, see
`glottalInitialAgentRepair`): for the root alef-hamza kaf lam under the
agent-noun template fa alef ain lam, substitution yields the glottal first
radical next to the template alef, and the repair merges the pair into the
single madda-marked alef, returning the madda word. -/
theorem glottal_initial_agent_akl :
    generateWord [alefHamzaAbove, kaf, lam] [fa, alef, ain, lam]
      = [alefHamzaAbove, alef, kaf, lam] ∧
    generateGlottalInitialAgent [alefHamzaAbove, kaf, lam] [fa, alef, ain, lam]
      = [alefMadda, kaf, lam] := by
  decide

/-- Claim C4 is false as stated: the standalone hamza letter (the seated form
written on the line, U+0621) is not folded to bare alef, and the stripped
combining range also removes sukun, which is neither a short-vowel nor a
doubling mark. -/
theorem normalizeArabic_standalone_hamza_counterexample :
    normalizeArabic [hamzaStandalone] = [hamzaStandalone] ∧
    [hamzaStandalone] ≠ [alef] ∧
    normalizeArabic [sukun] = [] := by
  decide

/-- Claim C4 (amended): `normalizeArabic` removes exactly the combining marks
U+064B..U+0652 (short vowels, tanwin, shadda, sukun) and then folds, per
character, the hamza-above, hamza-below and madda variants of alef to bare
alef, waw-hamza to waw, ya-hamza to ya and ta-marbuta to ha, removal
preceding folding; the standalone hamza letter is not folded. -/
theorem normalizeArabic_matches_spec (s : List Char) :
    normalizeArabic s = normalizeSpec s := by
  rw [normalizeArabic_eq_filter_map]
  unfold normalizeSpec
  have h2 : foldLetter = foldLetterSpec := funext foldLetter_eq_spec
  rw [h2]
  rfl

/-- Claim C5: for every 3-letter root and every template, substitution scans
the template once left to right, emitting the first root letter for each fa,
the second for each ain, the third for each lam, and every other template
character unchanged. -/
theorem generateWord_scan (r1 r2 r3 c : Char) (t : List Char) :
    generateWord [r1, r2, r3] [] = [] ∧
    generateWord [r1, r2, r3] (c :: t) =
      (if c = fa then r1 else if c = ain then r2 else if c = lam then r3 else c)
        :: generateWord [r1, r2, r3] t :=
  ⟨rfl, rfl⟩

/-- Claim C6: normalization is idempotent. -/
theorem normalizeArabic_idempotent (x : List Char) :
    normalizeArabic (normalizeArabic x) = normalizeArabic x := by
  rw [normalizeArabic_eq_filter_map (normalizeArabic x), normalizeArabic_eq_filter_map x]
  have hfix : ((x.filter (fun c => !isHaraka c)).map foldLetter).filter
      (fun c => !isHaraka c) = (x.filter (fun c => !isHaraka c)).map foldLetter := by
    apply List.filter_eq_self.mpr
    intro a ha
    obtain ⟨b, hb, rfl⟩ := List.mem_map.mp ha
    have hbH : isHaraka b = false := by
      have := (List.mem_filter.mp hb).2
      simpa using this
    simp [isHaraka_foldLetter b hbH]
  rw [hfix, List.map_map]
  have hcomp : foldLetter ∘ foldLetter = foldLetter := funext foldLetter_idem
  rw [hcomp]

/-- Claim C7 is false as stated: a 3-letter root made of code points outside
the Arabic letter set does not signal InvalidRoot; its letters are substituted
into the template as-is. -/
theorem generateWord_no_letter_set_check_counterexample :
    generateWord ['a', 'b', 'c'] [fa, ain, lam] = ['a', 'b', 'c'] ∧
    generateWord ['a', 'b', 'c'] [fa, ain, lam] ≠ errorRootMsg := by
  decide

/-- Claim C7 (amended): generation signals InvalidRoot (returns the error
sentinel) exactly when the root's length differs from 3; no Arabic-letter-set
check is performed, so every length-3 root is substituted into the template;
generation, validation and normalization are total functions. -/
theorem generateWord_error_exactly_on_length (root t : List Char) :
    (root.length ≠ 3 → generateWord root t = errorRootMsg) ∧
    (root.length = 3 → ∀ r1 r2 r3, root = [r1, r2, r3] →
        generateWord root t = t.map (fun c =>
          if c = fa then r1 else if c = ain then r2 else if c = lam then r3 else c)) := by
  refine ⟨fun h => generateWord_len_ne root t h, fun h3 r1 r2 r3 heq => ?_⟩
  subst heq
  rfl

/-- Witness for C7 (amended): a 2-letter root yields the sentinel; the
non-Arabic 3-letter root is substituted without any error. -/
theorem generateWord_error_exactly_on_length_witness :
    generateWord [ba, kaf] [fa] = errorRootMsg ∧
    generateWord [kaf, ta, ba] [fa, alef, ain, lam] = [kaf, alef, ta, ba] := by
  constructor
  · exact (generateWord_error_exactly_on_length [ba, kaf] [fa]).1 (by decide)
  · have h := (generateWord_error_exactly_on_length [kaf, ta, ba]
        [fa, alef, ain, lam]).2 (by decide) kaf ta ba rfl
    rw [h]
    decide

/-- Claim C8: for a root whose length is not 3, `generateWord` returns the
literal error string as if it were a word, and `validateWord` still iterates
the patterns comparing that sentinel under normalization, returning
`isValid = false` for every candidate that does not normalize to the sentinel
text. -/
theorem invalid_root_sentinel_behavior (root : List Char) (h : root.length ≠ 3) :
    (∀ p, generateWord root p = errorRootMsg) ∧
    (∀ w ps, normalizeArabic w ≠ errorRootMsg →
        (validateWord w root ps).isValid = false) := by
  refine ⟨fun p => generateWord_len_ne root p h, fun w ps hw => ?_⟩
  induction ps with
  | nil => rfl
  | cons q qs ih =>
      have hq : normalizeArabic (generateWord root q) ≠ normalizeArabic w := by
        rw [generateWord_len_ne root q h, normalizeArabic_errorRootMsg]
        exact fun hc => hw hc.symm
      simpa [validateWord, hq] using ih

/-- Witness for C8: a 1-letter root. -/
theorem invalid_root_sentinel_behavior_witness :
    generateWord [ba] [fa, ain, lam] = errorRootMsg ∧
    (validateWord [kaf, alef, ta, ba] [ba] [[fa, alef, ain, lam]]).isValid = false := by
  have h := invalid_root_sentinel_behavior [ba] (by decide)
  exact ⟨h.1 [fa, ain, lam],
    h.2 [kaf, alef, ta, ba] [[fa, alef, ain, lam]] (by decide)⟩

/-- Claim C9: for a root of exactly 3 characters, the generated word has
exactly as many characters as the template. -/
theorem generateWord_length_preserving (root t : List Char) (h3 : root.length = 3) :
    (generateWord root t).length = t.length := by
  obtain ⟨r1, r2, r3, rfl⟩ := List.length_eq_three.mp h3
  simp [generateWord]

/-- Witness for C9. -/
theorem generateWord_length_preserving_witness :
    (generateWord [kaf, ta, ba] [fa, alef, ain, lam]).length =
      [fa, alef, ain, lam].length :=
  generateWord_length_preserving [kaf, ta, ba] [fa, alef, ain, lam] (by decide)

/-- Claim C10: `decomposeWord` returns null for every input word and every
pattern collection. -/
theorem decomposeWord_always_none (w : List Char) (ps : List (List Char)) :
    decomposeWord w ps = none :=
  rfl

end MorphoArbre
